import Mathlib

/-!
Shallow embedding of the tournament synchronization core of the
FlashCard_Audio repository: the tournament data model (src/types.ts), the
host-authoritative peer transport handlers (src/components/TournamentRoom.tsx),
the replicated-store transport (src/services/firebaseService.ts and the
store-side room component), and tournament creation
(src/components/TournamentLobby.tsx and the online lobby).

JavaScript objects used as string-keyed maps are embedded as association
lists with the JS spread-update semantics: an update of an existing key
replaces the entry in place, an update of a fresh key appends it.
-/

namespace TournamentSpec

/-- Model of a JS object used as a string-keyed map (insertion ordered,
unique keys). -/
abbrev ObjMap (α : Type) := List (String × α)

/-- Property lookup, `m[k]`: the first (with unique keys, only) binding. -/
def objGet {α : Type} : ObjMap α → String → Option α
  | [], _ => none
  | kv :: rest, k => if kv.1 = k then some kv.2 else objGet rest k

/-- Key membership test, `k in m`. -/
def objHasKey {α : Type} : ObjMap α → String → Bool
  | [], _ => false
  | kv :: rest, k => kv.1 == k || objHasKey rest k

/-- Replacement of the binding of `k` in place, keeping its position. -/
def objReplace {α : Type} : ObjMap α → String → α → ObjMap α
  | [], _, _ => []
  | kv :: rest, k, v => (if kv.1 = k then (k, v) else kv) :: objReplace rest k v

/-- Spread update `\x7b...m, [k]: v\x7d`: replace the binding of `k` in place
when present, append it otherwise. -/
def objSet {α : Type} (m : ObjMap α) (k : String) (v : α) : ObjMap α :=
  if objHasKey m k then objReplace m k v else m ++ [(k, v)]

/-- Field-path update of one entry, `m[k].f = ...` applied to the fields
changed by `f`; a lookup miss leaves the map unchanged. -/
def objModify {α : Type} : ObjMap α → String → (α → α) → ObjMap α
  | [], _, _ => []
  | kv :: rest, k, f =>
      (if kv.1 = k then (kv.1, f kv.2) else kv) :: objModify rest k f

/-- Property deletion, `delete m[k]`. -/
def objDelete {α : Type} (m : ObjMap α) (k : String) : ObjMap α :=
  m.filter (fun kv => kv.1 != k)

/-- Key list, `Object.keys(m)`. -/
def objKeys {α : Type} (m : ObjMap α) : List String :=
  m.map Prod.fst

theorem objKeys_nil {α : Type} : objKeys ([] : ObjMap α) = [] := rfl

theorem objKeys_cons {α : Type} (kv : String × α) (rest : ObjMap α) :
    objKeys (kv :: rest) = kv.1 :: objKeys rest := rfl

theorem objHasKey_iff {α : Type} (m : ObjMap α) (k : String) :
    objHasKey m k = true ↔ k ∈ objKeys m := by
  induction m with
  | nil => simp [objHasKey, objKeys_nil]
  | cons kv rest ih =>
    simp [objHasKey, objKeys_cons, ih, beq_iff_eq, List.mem_cons]
    constructor
    · rintro (h | h)
      · exact Or.inl h.symm
      · exact Or.inr h
    · rintro (h | h)
      · exact Or.inl h.symm
      · exact Or.inr h

theorem objGet_eq_none_iff {α : Type} (m : ObjMap α) (k : String) :
    objGet m k = none ↔ k ∉ objKeys m := by
  induction m with
  | nil => simp [objGet, objKeys_nil]
  | cons kv rest ih =>
    by_cases h : kv.1 = k
    · simp [objGet, objKeys_cons, h]
    · simp [objGet, objKeys_cons, h, ih, Ne.symm h]

theorem objGet_isSome_iff {α : Type} (m : ObjMap α) (k : String) :
    (objGet m k).isSome = true ↔ k ∈ objKeys m := by
  induction m with
  | nil => simp [objGet, objKeys_nil]
  | cons kv rest ih =>
    by_cases h : kv.1 = k
    · simp [objGet, objKeys_cons, h]
    · simp [objGet, objKeys_cons, h, ih, Ne.symm h]

theorem objGet_mem {α : Type} {m : ObjMap α} {k : String} {v : α}
    (h : objGet m k = some v) : (k, v) ∈ m := by
  induction m with
  | nil => simp [objGet] at h
  | cons kv rest ih =>
    by_cases hk : kv.1 = k
    · simp [objGet, hk] at h
      subst hk
      rw [← h]
      exact List.mem_cons_self _ _
    · simp [objGet, hk] at h
      exact List.mem_cons_of_mem _ (ih h)

theorem objGet_objReplace_self {α : Type} (m : ObjMap α) (k : String) (v : α) :
    objGet (objReplace m k v) k = (objGet m k).map (fun _ => v) := by
  induction m with
  | nil => simp [objGet, objReplace]
  | cons kv rest ih =>
    by_cases hk : kv.1 = k
    · simp [objGet, objReplace, hk]
    · simp [objGet, objReplace, hk, ih]

theorem objGet_objReplace_ne {α : Type} (m : ObjMap α) (k k' : String) (v : α)
    (hne : k' ≠ k) : objGet (objReplace m k v) k' = objGet m k' := by
  induction m with
  | nil => simp [objGet, objReplace]
  | cons kv rest ih =>
    by_cases hk : kv.1 = k
    · have h1 : objReplace (kv :: rest) k v = (k, v) :: objReplace rest k v := by
        simp [objReplace, hk]
      have hkv : kv.1 ≠ k' := by rw [hk]; exact Ne.symm hne
      rw [h1]
      simp [objGet, Ne.symm hne, hkv, ih]
    · have h1 : objReplace (kv :: rest) k v = kv :: objReplace rest k v := by
        simp [objReplace, hk]
      rw [h1]
      by_cases hk' : kv.1 = k'
      · simp [objGet, hk']
      · simp [objGet, hk', ih]

theorem objKeys_objReplace {α : Type} (m : ObjMap α) (k : String) (v : α) :
    objKeys (objReplace m k v) = objKeys m := by
  induction m with
  | nil => rfl
  | cons kv rest ih =>
    by_cases hk : kv.1 = k
    · simp [objKeys, objReplace, hk, ih]
      simpa [objKeys] using ih
    · simp [objKeys, objReplace, hk]
      simpa [objKeys] using ih

theorem objGet_append_single_self {α : Type} (m : ObjMap α) (k : String) (v : α)
    (h : objHasKey m k = false) : objGet (m ++ [(k, v)]) k = some v := by
  induction m with
  | nil => simp [objGet]
  | cons kv rest ih =>
    simp only [objHasKey, Bool.or_eq_false_iff, beq_eq_false_iff_ne] at h
    simp only [List.cons_append, objGet, h.1, if_false]
    exact ih h.2

theorem objGet_append_single_ne {α : Type} (m : ObjMap α) (k k' : String) (v : α)
    (hne : k' ≠ k) : objGet (m ++ [(k, v)]) k' = objGet m k' := by
  induction m with
  | nil => simp [objGet, Ne.symm hne]
  | cons kv rest ih =>
    by_cases hk' : kv.1 = k'
    · simp [objGet, hk']
    · simp only [List.cons_append, objGet, hk', if_false]
      exact ih

theorem objGet_objSet_self {α : Type} (m : ObjMap α) (k : String) (v : α) :
    objGet (objSet m k v) k = some v := by
  unfold objSet
  by_cases h : objHasKey m k = true
  · rw [if_pos h, objGet_objReplace_self]
    have hmem : k ∈ objKeys m := (objHasKey_iff m k).1 h
    rw [← objGet_isSome_iff] at hmem
    cases hget : objGet m k with
    | none => rw [hget] at hmem; simp at hmem
    | some w => simp
  · rw [if_neg h]
    exact objGet_append_single_self m k v (by simpa using h)

theorem objGet_objSet_ne {α : Type} (m : ObjMap α) (k k' : String) (v : α)
    (hne : k' ≠ k) : objGet (objSet m k v) k' = objGet m k' := by
  unfold objSet
  by_cases h : objHasKey m k = true
  · rw [if_pos h, objGet_objReplace_ne _ _ _ _ hne]
  · rw [if_neg h]
    exact objGet_append_single_ne m k k' v hne

theorem objKeys_objSet {α : Type} (m : ObjMap α) (k : String) (v : α) :
    objKeys (objSet m k v) =
      if k ∈ objKeys m then objKeys m else objKeys m ++ [k] := by
  unfold objSet
  by_cases h : objHasKey m k = true
  · rw [if_pos h, if_pos ((objHasKey_iff m k).1 h), objKeys_objReplace]
  · rw [if_neg h, if_neg (fun hmem => h ((objHasKey_iff m k).2 hmem))]
    simp [objKeys]

theorem objKeys_toFinset_objSet {α : Type} (m : ObjMap α) (k : String) (v : α) :
    (objKeys (objSet m k v)).toFinset = insert k (objKeys m).toFinset := by
  rw [objKeys_objSet]
  by_cases h : k ∈ objKeys m
  · rw [if_pos h]
    exact (Finset.insert_eq_self.2 (List.mem_toFinset.2 h)).symm
  · rw [if_neg h]
    simp [List.toFinset_append]
    exact Finset.union_comm _ _

theorem objKeys_nodup_objSet {α : Type} (m : ObjMap α) (k : String) (v : α)
    (h : (objKeys m).Nodup) : (objKeys (objSet m k v)).Nodup := by
  rw [objKeys_objSet]
  by_cases hk : k ∈ objKeys m
  · rwa [if_pos hk]
  · rw [if_neg hk]
    rw [List.nodup_append]
    exact ⟨h, List.nodup_singleton k, by simpa using hk⟩

theorem objKeys_length {α : Type} (m : ObjMap α) :
    (objKeys m).length = m.length := by
  simp [objKeys]

theorem objGet_objModify_self {α : Type} (m : ObjMap α) (k : String) (f : α → α) :
    objGet (objModify m k f) k = (objGet m k).map f := by
  induction m with
  | nil => simp [objGet, objModify]
  | cons kv rest ih =>
    by_cases hk : kv.1 = k
    · simp [objGet, objModify, hk]
    · simp [objGet, objModify, hk, ih]

theorem objGet_objModify_ne {α : Type} (m : ObjMap α) (k k' : String) (f : α → α)
    (hne : k' ≠ k) : objGet (objModify m k f) k' = objGet m k' := by
  induction m with
  | nil => simp [objGet, objModify]
  | cons kv rest ih =>
    by_cases hk : kv.1 = k
    · have h1 : objModify (kv :: rest) k f = (kv.1, f kv.2) :: objModify rest k f := by
        simp [objModify, hk]
      have hkv : kv.1 ≠ k' := by rw [hk]; exact Ne.symm hne
      rw [h1]
      simp [objGet, hkv, ih]
    · have h1 : objModify (kv :: rest) k f = kv :: objModify rest k f := by
        simp [objModify, hk]
      rw [h1]
      by_cases hk' : kv.1 = k'
      · simp [objGet, hk']
      · simp [objGet, hk', ih]

/-! Data model, from src/types.ts. -/

/-- GameType from src/types.ts. -/
inductive GameType : Type
  | imageToText
  | audioToText
  | scrambled
  | fillInBlanks
  | audioToImage
  | imageToAudio
deriving DecidableEq

/-- TournamentQuestion from src/types.ts (the sanitized Firestore shape of a
FlashcardItem); the peer transport carries full FlashcardItems with the same
four fields. A `none` imageUrl models `null`. -/
structure TournamentQuestion : Type where
  id : String
  text : String
  audioUrl : String
  imageUrl : Option String
deriving DecidableEq

/-- TournamentPlayer from src/types.ts. The score is an `Int` (a JS number
that only ever receives non-negative increments). -/
structure TournamentPlayer : Type where
  id : String
  name : String
  score : Int
  currentQuestionIndex : Nat
  isFinished : Bool
deriving DecidableEq

/-- Lifecycle status union of the `status` field of Tournament. -/
inductive TournamentStatus : Type
  | waiting
  | playing
  | finished
deriving DecidableEq

/-- Tournament from src/types.ts; `createdAt` models the Firestore
timestamp (absent, hence irrelevant, on the peer transport). -/
structure Tournament : Type where
  id : String
  gameType : GameType
  status : TournamentStatus
  questions : List TournamentQuestion
  players : ObjMap TournamentPlayer
  creatorId : String
  createdAt : Int
deriving DecidableEq

/-! Scoring engine, identical in src/components/TournamentRoom.tsx
(handleAnswerSubmitted, lines 193-196) and in the store-side room
component (handleCheckAnswer, lines 86-89). -/

/-- Score increment for one submission:
`isCorrect ? Math.max(0, 1000 - Math.floor(timeTaken / 20)) : 0`.
`Int.fdiv` is floor division, exactly JS `Math.floor(x / 20)`. -/
def scoreIncrement (isCorrect : Bool) (timeTaken : Int) : Int :=
  if isCorrect then max 0 (1000 - Int.fdiv timeTaken 20) else 0

/-- Multiple-choice game test:
`gameType === 'audioToImage' || gameType === 'imageToAudio'`. -/
def isMcq (gt : GameType) : Bool :=
  gt == GameType.audioToImage || gt == GameType.imageToAudio

/-- Correctness test, shared by both transports: for MCQ games the answer is
compared with the question id, otherwise case-insensitively with its text. -/
def isCorrectAnswer (gt : GameType) (question : TournamentQuestion)
    (answer : String) : Bool :=
  if isMcq gt then answer == question.id
  else answer.toLower == question.text.toLower

/-! Host-authoritative peer transport,
src/components/TournamentRoom.tsx. -/

/-- SUBMIT_ANSWER handling at the host, `handleAnswerSubmitted`
(lines 182-220). The source reads `playerState.currentQuestionIndex` before
the `if (!playerState || !question) return prev` guard, so a message whose
playerId is not a key of the players map throws a TypeError instead of
reaching the guard; that crash is modelled as `none`. The `!question` half
of the guard (index past the end of the questions list) returns `prev`
unchanged. -/
def handleAnswerSubmitted (prev : Tournament) (pName answer : String)
    (timeTaken : Int) : Option Tournament :=
  match objGet prev.players pName with
  | none => none
  | some playerState =>
    match prev.questions[playerState.currentQuestionIndex]? with
    | none => some prev
    | some question =>
      let isCorrect := isCorrectAnswer prev.gameType question answer
      let inc := scoreIncrement isCorrect timeTaken
      let nextIndex := playerState.currentQuestionIndex + 1
      let isFin : Bool := decide (prev.questions.length ≤ nextIndex)
      let updatedPlayer : TournamentPlayer :=
        { playerState with
            score := playerState.score + inc
            currentQuestionIndex := nextIndex
            isFinished := isFin }
      let updatedPlayers := objSet prev.players pName updatedPlayer
      let allFinished := updatedPlayers.all (fun kv => kv.2.isFinished)
      some { prev with
              players := updatedPlayers
              status := if allFinished then TournamentStatus.finished
                        else prev.status }

/-- JOIN_REQUEST handling at the host (lines 128-141): a fresh player keyed
by the submitted name, with `id` set to the transport connection id, is
spread into the players map; there is no status check. -/
def joinRequestPeer (prev : Tournament) (connPeer name : String) : Tournament :=
  { prev with
      players := objSet prev.players name
        { id := connPeer, name := name, score := 0,
          currentQuestionIndex := 0, isFinished := false } }

/-- Start Game button handler (lines 288-295). The update itself is
unconditional, but the button is rendered only inside the
`tournament.status === 'waiting'` branch of the component, so the handler
can fire only from the waiting state. -/
def startGamePeer (t : Tournament) : Tournament :=
  if t.status = TournamentStatus.waiting
  then { t with status := TournamentStatus.playing }
  else t

/-- Connection-close handling at the host (lines 146-158): the player whose
`id` equals the dropped connection id is removed, keyed by its name. -/
def handleDisconnect (t : Tournament) (connPeer : String) : Tournament :=
  match (t.players.map Prod.snd).find? (fun p => p.id == connPeer) with
  | some p => { t with players := objDelete t.players p.name }
  | none => t

/-- Host initialization effect (lines 69-91): the creator becomes the sole
player with a zeroed state and status starts at waiting. -/
def initialHostTournament (playerName : String) (gt : GameType)
    (questions : List TournamentQuestion) : Tournament :=
  { id := ""
    gameType := gt
    status := TournamentStatus.waiting
    questions := questions
    players := [(playerName,
      { id := playerName, name := playerName, score := 0,
        currentQuestionIndex := 0, isFinished := false })]
    creatorId := playerName
    createdAt := 0 }

/-- Mutating operations the host applies to its authoritative state. -/
inductive HostOp : Type
  | joinReq (connPeer name : String)
  | startGame
  | submitAnswer (playerId answer : String) (timeTaken : Int)
  | disconnect (connPeer : String)

/-- One host step. A SUBMIT_ANSWER whose playerId is missing throws inside
the React state updater, which leaves the held state unchanged; this is
modelled with `Option.getD`. -/
def applyHostOp (t : Tournament) : HostOp → Tournament
  | HostOp.joinReq c n => joinRequestPeer t c n
  | HostOp.startGame => startGamePeer t
  | HostOp.submitAnswer pid a tt => (handleAnswerSubmitted t pid a tt).getD t
  | HostOp.disconnect c => handleDisconnect t c

/-- States the peer-transport host can reach from its initial state: the
peer-open id assignment followed by any interleaving of joins, the start
command, answer submissions and disconnects. -/
inductive ReachableHost (pn : String) (gt : GameType)
    (qs : List TournamentQuestion) : Tournament → Prop
  | init : ReachableHost pn gt qs (initialHostTournament pn gt qs)
  | setId (t : Tournament) (i : String) :
      ReachableHost pn gt qs t → ReachableHost pn gt qs { t with id := i }
  | step (t : Tournament) (op : HostOp) :
      ReachableHost pn gt qs t → ReachableHost pn gt qs (applyHostOp t op)

/-! Replicated-store transport, src/services/firebaseService.ts and the
store-side room component. -/

/-- Document created by `createTournament` (lines 28-61). -/
def createTournamentDoc (creatorName : String) (gt : GameType)
    (questions : List TournamentQuestion) (docId : String)
    (createdAt : Int) : Tournament :=
  { id := docId
    gameType := gt
    status := TournamentStatus.waiting
    questions := questions
    players := [(creatorName,
      { id := creatorName, name := creatorName, score := 0,
        currentQuestionIndex := 0, isFinished := false })]
    creatorId := creatorName
    createdAt := createdAt }

/-- Player entry written by `joinTournament` (lines 63-79). -/
def newStorePlayer (playerName : String) : TournamentPlayer :=
  { id := playerName, name := playerName, score := 0,
    currentQuestionIndex := 0, isFinished := false }

/-- The `joinTournament` field-path write `players.<name> = newPlayer`
(lines 63-79): set the sub-object, with no status check. -/
def joinTournament (t : Tournament) (playerName : String) : Tournament :=
  { t with players := objSet t.players playerName (newStorePlayer playerName) }

/-- The `startTournament` write `status = 'playing'` (lines 81-85); like the
peer variant it is reachable only from the waiting-room render. -/
def startTournament (t : Tournament) : Tournament :=
  { t with status := TournamentStatus.playing }

/-- The `updatePlayerState` field-path write (lines 87-101) for the three
sub-paths the room component submits: `players.<id>.score`,
`players.<id>.currentQuestionIndex`, `players.<id>.isFinished`. -/
def updatePlayerState (t : Tournament) (playerId : String) (score : Int)
    (currentQuestionIndex : Nat) (isFin : Bool) : Tournament :=
  { t with
      players := objModify t.players playerId (fun p =>
        { p with
            score := score
            currentQuestionIndex := currentQuestionIndex
            isFinished := isFin }) }

/-- The `checkAndFinishTournament` read-then-write (lines 103-115): flip
status to finished when every player's isFinished flag is set. -/
def checkAndFinishTournament (t : Tournament) : Tournament :=
  if t.players.all (fun kv => kv.2.isFinished)
  then { t with status := TournamentStatus.finished }
  else t

/-- The store-side room component's `handleCheckAnswer` applied to the
document it read (lines 76-108): guard on player and question existence,
score, write the three sub-paths, then run the finish check when the player
just finished. -/
def handleCheckAnswer (t : Tournament) (playerName answer : String)
    (timeTaken : Int) : Tournament :=
  match objGet t.players playerName with
  | none => t
  | some player =>
    match t.questions[player.currentQuestionIndex]? with
    | none => t
    | some question =>
      let isCorrect := isCorrectAnswer t.gameType question answer
      let inc := scoreIncrement isCorrect timeTaken
      let nextIndex := player.currentQuestionIndex + 1
      let isFin : Bool := decide (t.questions.length ≤ nextIndex)
      let t' := updatePlayerState t playerName (player.score + inc)
        nextIndex isFin
      if isFin then checkAndFinishTournament t' else t'

/-! Tournament creation, src/components/TournamentLobby.tsx
(handleCreateRoom, lines 27-53, with the question set built identically by
the TournamentRoom host effect, lines 72-73) and the online lobby's
handleCreateTournament (lines 26-55). -/

/-- FlashcardItem from src/types.ts. -/
structure FlashcardItem : Type where
  id : String
  text : String
  audioUrl : String
  imageUrl : Option String
  isLoading : Bool
deriving DecidableEq

/-- The playability filter `c.imageUrl && c.audioUrl`: JS truthiness makes
both `null` and the empty string fail. -/
def isPlayableCard (c : FlashcardItem) : Bool :=
  (c.imageUrl.getD "" != "") && (c.audioUrl != "")

/-- Question-set construction shared by both lobbies: filter to playable
cards, shuffle, refuse below 5, otherwise keep
`slice(0, Math.min(10, playableCards.length))`. The random shuffle is
abstracted as an arbitrary length-preserving reordering function. -/
def handleCreateTournament (shuffle : List FlashcardItem → List FlashcardItem)
    (flashcards : List FlashcardItem) : Option (List FlashcardItem) :=
  let playableCards := shuffle (flashcards.filter isPlayableCard)
  if playableCards.length < 5 then none
  else some (playableCards.take (min 10 playableCards.length))

/-! Helper lemmas about the embedded operations. -/

theorem checkAndFinishTournament_players (t : Tournament) :
    (checkAndFinishTournament t).players = t.players := by
  unfold checkAndFinishTournament
  split <;> rfl

/-! Concrete sample states used by witnesses and counterexamples. -/

/-- Sample question for concrete runs. -/
def sampleQuestion (n : Nat) : TournamentQuestion :=
  { id := toString n, text := toString n, audioUrl := "a",
    imageUrl := some "i" }

/-- Five sample questions, the minimum a creation accepts. -/
def sampleQuestions : List TournamentQuestion :=
  [sampleQuestion 1, sampleQuestion 2, sampleQuestion 3,
   sampleQuestion 4, sampleQuestion 5]

/-- The creator's initial player entry. -/
def hostPlayer : TournamentPlayer :=
  { id := "host", name := "host", score := 0,
    currentQuestionIndex := 0, isFinished := false }

/-- The host's state right after initialization. -/
def hostWaiting : Tournament :=
  initialHostTournament "host" GameType.imageToText sampleQuestions

/-- The host's state right after pressing Start Game. -/
def hostPlaying : Tournament := applyHostOp hostWaiting HostOp.startGame

/-- A store document whose only player has answered all five questions. -/
def finishedDoc : Tournament :=
  { id := "doc1"
    gameType := GameType.imageToText
    status := TournamentStatus.playing
    questions := sampleQuestions
    players := [("amy",
      { id := "amy", name := "amy", score := 975,
        currentQuestionIndex := 5, isFinished := true })]
    creatorId := "amy"
    createdAt := 7 }

/-! Claim theorems. -/

/-- Claim C1: the score increment is `max(0, 1000 - floor(timeTakenMs/20))`
for a correct answer and 0 for an incorrect one; for `t ≥ 0` the correct
increment is non-increasing in `t` and lies in `[0, 1000]`, the incorrect
increment is 0 for every `t`; and on both transports an accepted submission
adds exactly this increment to the player's score. -/
theorem scoreIncrement_spec :
    (∀ t : Int, scoreIncrement false t = 0) ∧
    (∀ t u : Int, 0 ≤ t → t ≤ u →
      scoreIncrement true u ≤ scoreIncrement true t) ∧
    (∀ t : Int, 0 ≤ t →
      0 ≤ scoreIncrement true t ∧ scoreIncrement true t ≤ 1000) ∧
    (∀ (prev : Tournament) (pid a : String) (tt : Int)
        (pl : TournamentPlayer) (q : TournamentQuestion),
      objGet prev.players pid = some pl →
      prev.questions[pl.currentQuestionIndex]? = some q →
      ((handleAnswerSubmitted prev pid a tt).bind
          (fun u => objGet u.players pid)).map TournamentPlayer.score =
        some (pl.score + scoreIncrement (isCorrectAnswer prev.gameType q a) tt)) ∧
    (∀ (t : Tournament) (pn a : String) (tt : Int)
        (pl : TournamentPlayer) (q : TournamentQuestion),
      objGet t.players pn = some pl →
      t.questions[pl.currentQuestionIndex]? = some q →
      (objGet (handleCheckAnswer t pn a tt).players pn).map
          TournamentPlayer.score =
        some (pl.score + scoreIncrement (isCorrectAnswer t.gameType q a) tt)) := by
  have h20 : (0 : Int) ≤ 20 := by norm_num
  refine ⟨fun t => rfl, ?_, ?_, ?_, ?_⟩
  · intro t u ht htu
    unfold scoreIncrement
    simp only [if_true]
    refine max_le_max le_rfl ?_
    refine sub_le_sub_left ?_ 1000
    rw [Int.fdiv_eq_ediv t h20, Int.fdiv_eq_ediv u h20]
    exact Int.ediv_le_ediv (by norm_num) htu
  · intro t ht
    unfold scoreIncrement
    simp only [if_true]
    constructor
    · exact le_max_left 0 _
    · refine max_le (by norm_num) ?_
      have hdiv : 0 ≤ Int.fdiv t 20 := Int.fdiv_nonneg ht h20
      omega
  · intro prev pid a tt pl q h1 h2
    simp only [handleAnswerSubmitted, h1, h2, Option.some_bind]
    rw [objGet_objSet_self]
    rfl
  · intro t pn a tt pl q h1 h2
    simp only [handleCheckAnswer, h1, h2]
    have key : objGet (updatePlayerState t pn
        (pl.score + scoreIncrement (isCorrectAnswer t.gameType q a) tt)
        (pl.currentQuestionIndex + 1)
        (decide (t.questions.length ≤ pl.currentQuestionIndex + 1))).players pn
        = some { pl with
            score := pl.score + scoreIncrement (isCorrectAnswer t.gameType q a) tt
            currentQuestionIndex := pl.currentQuestionIndex + 1
            isFinished := decide (t.questions.length ≤ pl.currentQuestionIndex + 1) } := by
      unfold updatePlayerState
      rw [objGet_objModify_self, h1]
      rfl
    split
    · rw [checkAndFinishTournament_players, key]
      rfl
    · rw [key]
      rfl

/-- Claim C1 witness: concrete instances of every part, in particular the
spec's scenario A submission (correct answer at 500 ms elapsed scores
`1000 - floor(500/20) = 975`). -/
theorem scoreIncrement_spec_witness :
    scoreIncrement false 123 = 0 ∧
    scoreIncrement true 900 ≤ scoreIncrement true 500 ∧
    (0 ≤ scoreIncrement true 500 ∧ scoreIncrement true 500 ≤ 1000) ∧
    ((handleAnswerSubmitted hostWaiting "host" "1" 500).bind
        (fun u => objGet u.players "host")).map TournamentPlayer.score =
      some (hostPlayer.score +
        scoreIncrement (isCorrectAnswer hostWaiting.gameType (sampleQuestion 1) "1") 500) ∧
    (objGet (handleCheckAnswer hostWaiting "host" "1" 500).players "host").map
        TournamentPlayer.score =
      some (hostPlayer.score +
        scoreIncrement (isCorrectAnswer hostWaiting.gameType (sampleQuestion 1) "1") 500) :=
  ⟨scoreIncrement_spec.1 123,
   scoreIncrement_spec.2.1 500 900 (by norm_num) (by norm_num),
   scoreIncrement_spec.2.2.1 500 (by norm_num),
   scoreIncrement_spec.2.2.2.1 hostWaiting "host" "1" 500 hostPlayer
     (sampleQuestion 1) (by decide) (by decide),
   scoreIncrement_spec.2.2.2.2 hostWaiting "host" "1" 500 hostPlayer
     (sampleQuestion 1) (by decide) (by decide)⟩

/-- Claim C9: the peer-transport SUBMIT_ANSWER handler is well-defined
exactly when the playerId is a key of the players map; a missing playerId
crashes on the dereference placed before the existence guard (`none` in the
model), so the guard's missing-player branch can never fire. -/
theorem handleAnswer_defined_iff (t : Tournament) (pid a : String) (tt : Int) :
    (handleAnswerSubmitted t pid a tt).isSome = true ↔
      pid ∈ objKeys t.players := by
  rw [← objGet_isSome_iff]
  unfold handleAnswerSubmitted
  cases h : objGet t.players pid with
  | none => simp
  | some pl => cases hq : t.questions[pl.currentQuestionIndex]? <;> simp [hq]

/-- Claim C7: the finish check flips status to finished when every player's
isFinished flag is set, changing nothing else; it leaves the state entirely
unchanged otherwise; and it is idempotent. -/
theorem checkAndFinish_spec (t : Tournament) :
    ((t.players.all fun kv => kv.2.isFinished) = true →
      (checkAndFinishTournament t).status = TournamentStatus.finished ∧
      (checkAndFinishTournament t).players = t.players ∧
      (checkAndFinishTournament t).questions = t.questions) ∧
    ((t.players.all fun kv => kv.2.isFinished) = false →
      checkAndFinishTournament t = t) ∧
    checkAndFinishTournament (checkAndFinishTournament t) =
      checkAndFinishTournament t := by
  by_cases h : (t.players.all fun kv => kv.2.isFinished) = true
  · have hstep : checkAndFinishTournament t =
        { t with status := TournamentStatus.finished } := by
      unfold checkAndFinishTournament
      rw [if_pos h]
    refine ⟨fun _ => ?_, fun hf => ?_, ?_⟩
    · rw [hstep]
      exact ⟨rfl, rfl, rfl⟩
    · rw [h] at hf; cases hf
    · rw [hstep]
      unfold checkAndFinishTournament
      rw [if_pos (show (({ t with status := TournamentStatus.finished } :
        Tournament).players.all fun kv => kv.2.isFinished) = true from h)]
  · refine ⟨fun ht => absurd ht h, fun _ => ?_, ?_⟩
    · unfold checkAndFinishTournament
      rw [if_neg h]
    · unfold checkAndFinishTournament
      rw [if_neg h, if_neg h]

/-- Claim C7 witness: a concrete all-finished document is finished by the
check, its players untouched. -/
theorem checkAndFinish_spec_witness :
    (finishedDoc.players.all fun kv => kv.2.isFinished) = true ∧
    (checkAndFinishTournament finishedDoc).status = TournamentStatus.finished ∧
    (checkAndFinishTournament finishedDoc).players = finishedDoc.players :=
  ⟨by decide, ((checkAndFinish_spec finishedDoc).1 (by decide)).1,
   ((checkAndFinish_spec finishedDoc).1 (by decide)).2.1⟩

/-- One SUBMIT_ANSWER step by the host's single player. -/
def submitStep (s : Tournament) : Tournament :=
  applyHostOp s (HostOp.submitAnswer "host" "x" 0)

/-- The host's state after its single player has submitted answers to all
five questions while the tournament was still in the waiting status (the
SUBMIT_ANSWER branch of the connection handler performs no status check). -/
def hostAfterFiveSubmits : Tournament := submitStep^[5] hostWaiting

/-- Claim C3 counterexample: with the tournament already playing, a peer
JOIN_REQUEST is not rejected; it changes the state and adds the new
player's entry. -/
theorem join_while_playing_changes_state :
    hostPlaying.status = TournamentStatus.playing ∧
    joinRequestPeer hostPlaying "conn2" "bob" ≠ hostPlaying ∧
    objGet (joinRequestPeer hostPlaying "conn2" "bob").players "bob" =
      some { id := "conn2", name := "bob", score := 0,
             currentQuestionIndex := 0, isFinished := false } :=
  ⟨by decide, by decide, by decide⟩

/-- Claim C3 amended: neither transport guards joins by status; a peer
JOIN_REQUEST and a replicated-store join each unconditionally set the
named player's fresh entry, whatever the current status, which stays
unchanged. -/
theorem join_ignores_status (t : Tournament)
    (connPeer joinName playerName : String) :
    objGet (joinRequestPeer t connPeer joinName).players joinName =
      some { id := connPeer, name := joinName, score := 0,
             currentQuestionIndex := 0, isFinished := false } ∧
    (joinRequestPeer t connPeer joinName).status = t.status ∧
    objGet (joinTournament t playerName).players playerName =
      some (newStorePlayer playerName) ∧
    (joinTournament t playerName).status = t.status :=
  ⟨objGet_objSet_self _ _ _, rfl, objGet_objSet_self _ _ _, rfl⟩

/-- Claim C2 counterexample: a JOIN_REQUEST applied to a finished snapshot
does not return the snapshot unchanged; the join branch has no status
check and merges a fresh player entry. -/
theorem finished_join_changes_state :
    hostAfterFiveSubmits.status = TournamentStatus.finished ∧
    joinRequestPeer hostAfterFiveSubmits "conn9" "zoe" ≠ hostAfterFiveSubmits := by
  refine ⟨by decide, fun he => ?_⟩
  have hlen : (joinRequestPeer hostAfterFiveSubmits "conn9" "zoe").players.length
      = hostAfterFiveSubmits.players.length := by rw [he]
  rw [show (joinRequestPeer hostAfterFiveSubmits "conn9" "zoe").players.length
        = 2 from by decide,
      show hostAfterFiveSubmits.players.length = 1 from by decide] at hlen
  cases hlen

/-- Claim C2 amended: a SUBMIT_ANSWER applied to a finished snapshot in
which every player's index has reached the end of the question list (the
situation produced by the handler itself on finishing) leaves the snapshot
identical; JOIN_REQUEST, by contrast, is not status-guarded and may change
the players map of a finished snapshot. -/
theorem finished_submit_noop (t : Tournament)
    (_hs : t.status = TournamentStatus.finished)
    (hall : ∀ kv ∈ t.players, t.questions.length ≤ kv.2.currentQuestionIndex)
    (pid a : String) (tt : Int) :
    applyHostOp t (HostOp.submitAnswer pid a tt) = t := by
  simp only [applyHostOp]
  cases h : objGet t.players pid with
  | none => simp only [handleAnswerSubmitted, h, Option.getD_none]
  | some pl =>
    have hq : t.questions[pl.currentQuestionIndex]? = none :=
      List.getElem?_eq_none (hall _ (objGet_mem h))
    simp only [handleAnswerSubmitted, h, hq, Option.getD_some]

/-- Claim C2 amended witness: the concrete finished state absorbs a
further SUBMIT_ANSWER. -/
theorem finished_submit_noop_witness :
    hostAfterFiveSubmits.status = TournamentStatus.finished ∧
    applyHostOp hostAfterFiveSubmits (HostOp.submitAnswer "host" "y" 100) =
      hostAfterFiveSubmits :=
  ⟨by decide, finished_submit_noop hostAfterFiveSubmits (by decide)
    (by decide) "host" "y" 100⟩

/-- Order of the lifecycle statuses along waiting → playing → finished. -/
def statusRank : TournamentStatus → Nat
  | TournamentStatus.waiting => 0
  | TournamentStatus.playing => 1
  | TournamentStatus.finished => 2

/-- Claim C5 counterexample: five SUBMIT_ANSWER messages applied from the
initial waiting state (the handler performs no status check) leave the
status at waiting through the fourth step and move it directly to finished
on the fifth, so one step skips the playing status entirely. -/
theorem submit_skips_playing :
    hostWaiting.status = TournamentStatus.waiting ∧
    (submitStep^[1] hostWaiting).status = TournamentStatus.waiting ∧
    (submitStep^[2] hostWaiting).status = TournamentStatus.waiting ∧
    (submitStep^[3] hostWaiting).status = TournamentStatus.waiting ∧
    (submitStep^[4] hostWaiting).status = TournamentStatus.waiting ∧
    (submitStep^[5] hostWaiting).status = TournamentStatus.finished :=
  ⟨by decide, by decide, by decide, by decide, by decide, by decide⟩

theorem statusRank_le_two (s : TournamentStatus) : statusRank s ≤ 2 := by
  cases s <;> simp [statusRank]

/-- An accepted SUBMIT_ANSWER either preserves the status or moves it to
finished. -/
theorem handleAnswerSubmitted_status {t : Tournament} {pid a : String}
    {tt : Int} {u : Tournament}
    (h : handleAnswerSubmitted t pid a tt = some u) :
    u.status = t.status ∨ u.status = TournamentStatus.finished := by
  unfold handleAnswerSubmitted at h
  cases hg : objGet t.players pid with
  | none => rw [hg] at h; cases h
  | some pl =>
    simp only [hg] at h
    cases hq : t.questions[pl.currentQuestionIndex]? with
    | none =>
      simp only [hq] at h
      rw [← Option.some.inj h]
      exact Or.inl rfl
    | some q =>
      simp only [hq] at h
      rw [← Option.some.inj h]
      dsimp only
      split
      · exact Or.inr rfl
      · exact Or.inl rfl

/-- Claim C5 amended: every host operation moves the status weakly forward
in the order waiting < playing < finished — no step ever returns it to an
earlier value — but a SUBMIT_ANSWER accepted while the status is waiting
can move it directly to finished, skipping playing (see the
counterexample). -/
theorem status_monotone (t : Tournament) (op : HostOp) :
    statusRank t.status ≤ statusRank (applyHostOp t op).status := by
  cases op with
  | joinReq c n => exact le_rfl
  | startGame =>
    show statusRank t.status ≤ statusRank (startGamePeer t).status
    unfold startGamePeer
    split
    · rename_i h
      rw [h]
      exact Nat.zero_le _
    · exact le_rfl
  | submitAnswer pid a tt =>
    cases hsub : handleAnswerSubmitted t pid a tt with
    | none =>
      simp only [applyHostOp, hsub, Option.getD_none]
      exact le_rfl
    | some u =>
      simp only [applyHostOp, hsub, Option.getD_some]
      rcases handleAnswerSubmitted_status hsub with h | h
      · rw [h]
      · rw [h]
        exact statusRank_le_two t.status
  | disconnect c =>
    show statusRank t.status ≤ statusRank (handleDisconnect t c).status
    unfold handleDisconnect
    cases h : (t.players.map Prod.snd).find? (fun p => p.id == c) with
    | none => simp only [h]; exact le_rfl
    | some p => simp only [h]; exact le_rfl

/-- Claim C8: the replicated-store answer write touches only the three
player sub-paths: every document field other than the player's score,
index and finished flag — including every other player's entry and the
written player's id and name — is unchanged. -/
theorem updatePlayerState_frame (t : Tournament) (pid : String) (sc : Int)
    (idx : Nat) (fl : Bool) (hmem : pid ∈ objKeys t.players) :
    (updatePlayerState t pid sc idx fl).gameType = t.gameType ∧
    (updatePlayerState t pid sc idx fl).questions = t.questions ∧
    (updatePlayerState t pid sc idx fl).status = t.status ∧
    (updatePlayerState t pid sc idx fl).creatorId = t.creatorId ∧
    (updatePlayerState t pid sc idx fl).createdAt = t.createdAt ∧
    (updatePlayerState t pid sc idx fl).id = t.id ∧
    (∀ q, q ≠ pid →
      objGet (updatePlayerState t pid sc idx fl).players q =
        objGet t.players q) ∧
    (objGet (updatePlayerState t pid sc idx fl).players pid).map
        TournamentPlayer.id = (objGet t.players pid).map TournamentPlayer.id ∧
    (objGet (updatePlayerState t pid sc idx fl).players pid).map
        TournamentPlayer.name =
      (objGet t.players pid).map TournamentPlayer.name ∧
    (objGet (updatePlayerState t pid sc idx fl).players pid).map
        TournamentPlayer.score = some sc ∧
    (objGet (updatePlayerState t pid sc idx fl).players pid).map
        TournamentPlayer.currentQuestionIndex = some idx ∧
    (objGet (updatePlayerState t pid sc idx fl).players pid).map
        TournamentPlayer.isFinished = some fl := by
  have hget : (objGet t.players pid).isSome = true :=
    (objGet_isSome_iff _ _).2 hmem
  obtain ⟨pl, hpl⟩ := Option.isSome_iff_exists.1 hget
  have hkey : objGet (updatePlayerState t pid sc idx fl).players pid =
      some { pl with
              score := sc
              currentQuestionIndex := idx
              isFinished := fl } := by
    show objGet (objModify t.players pid _) pid = _
    rw [objGet_objModify_self, hpl]
    rfl
  refine ⟨rfl, rfl, rfl, rfl, rfl, rfl, ?_, ?_, ?_, ?_, ?_, ?_⟩
  · intro q hq
    exact objGet_objModify_ne _ _ _ _ hq
  · rw [hkey, hpl]
    rfl
  · rw [hkey, hpl]
    rfl
  · rw [hkey]
    rfl
  · rw [hkey]
    rfl
  · rw [hkey]
    rfl

/-- Claim C8 witness: a concrete answer write preserves the status and the
absent player "zoe", and lands the score sub-path. -/
theorem updatePlayerState_frame_witness :
    "host" ∈ objKeys hostWaiting.players ∧
    (updatePlayerState hostWaiting "host" 975 1 false).status =
      hostWaiting.status ∧
    objGet (updatePlayerState hostWaiting "host" 975 1 false).players "zoe" =
      objGet hostWaiting.players "zoe" ∧
    (objGet (updatePlayerState hostWaiting "host" 975 1 false).players
        "host").map TournamentPlayer.score = some 975 :=
  ⟨by decide,
   (updatePlayerState_frame hostWaiting "host" 975 1 false (by decide)).2.2.1,
   (updatePlayerState_frame hostWaiting "host" 975 1 false
     (by decide)).2.2.2.2.2.2.1 "zoe" (by decide),
   (updatePlayerState_frame hostWaiting "host" 975 1 false
     (by decide)).2.2.2.2.2.2.2.2.2.1⟩

theorem mem_objReplace {α : Type} {m : ObjMap α} {k : String} {v : α}
    {e : String × α} (h : e ∈ objReplace m k v) : e ∈ m ∨ e = (k, v) := by
  induction m with
  | nil => simp [objReplace] at h
  | cons kv rest ih =>
    simp only [objReplace, List.mem_cons] at h
    rcases h with h | h
    · by_cases hk : kv.1 = k
      · rw [if_pos hk] at h
        exact Or.inr h
      · rw [if_neg hk] at h
        exact Or.inl (by rw [h]; exact List.mem_cons_self _ _)
    · rcases ih h with h' | h'
      · exact Or.inl (List.mem_cons_of_mem _ h')
      · exact Or.inr h'

theorem mem_objSet {α : Type} {m : ObjMap α} {k : String} {v : α}
    {e : String × α} (h : e ∈ objSet m k v) : e ∈ m ∨ e.2 = v := by
  unfold objSet at h
  split at h
  · rcases mem_objReplace h with h' | h'
    · exact Or.inl h'
    · exact Or.inr (by rw [h'])
  · rcases List.mem_append.1 h with h' | h'
    · exact Or.inl h'
    · simp only [List.mem_singleton] at h'
      exact Or.inr (by rw [h'])

/-- Every host operation preserves the bound of every player's index by the
question count. -/
theorem indexBound_applyHostOp {t : Tournament}
    (hinv : ∀ kv ∈ t.players, kv.2.currentQuestionIndex ≤ t.questions.length)
    (op : HostOp) :
    ∀ kv ∈ (applyHostOp t op).players,
      kv.2.currentQuestionIndex ≤ (applyHostOp t op).questions.length := by
  cases op with
  | joinReq c n =>
    intro kv hkv
    rcases mem_objSet hkv with hold | hnew
    · exact hinv kv hold
    · show kv.2.currentQuestionIndex ≤ t.questions.length
      rw [hnew]
      exact Nat.zero_le _
  | startGame =>
    have hp : (startGamePeer t).players = t.players := by
      unfold startGamePeer
      split <;> rfl
    have hq : (startGamePeer t).questions = t.questions := by
      unfold startGamePeer
      split <;> rfl
    show ∀ kv ∈ (startGamePeer t).players,
      kv.2.currentQuestionIndex ≤ (startGamePeer t).questions.length
    rw [hp, hq]
    exact hinv
  | submitAnswer pid a tt =>
    cases hsub : handleAnswerSubmitted t pid a tt with
    | none =>
      simp only [applyHostOp, hsub, Option.getD_none]
      exact hinv
    | some u =>
      simp only [applyHostOp, hsub, Option.getD_some]
      unfold handleAnswerSubmitted at hsub
      cases hg : objGet t.players pid with
      | none => rw [hg] at hsub; cases hsub
      | some pl =>
        simp only [hg] at hsub
        cases hq : t.questions[pl.currentQuestionIndex]? with
        | none =>
          simp only [hq] at hsub
          rw [← Option.some.inj hsub]
          exact hinv
        | some q =>
          have hlt : pl.currentQuestionIndex < t.questions.length := by
            rcases List.getElem?_eq_some_iff.1 hq with ⟨hl, _⟩
            exact hl
          simp only [hq] at hsub
          rw [← Option.some.inj hsub]
          dsimp only
          intro kv hkv
          rcases mem_objSet hkv with hold | hnew
          · exact hinv kv hold
          · rw [hnew]
            dsimp only
            omega
  | disconnect c =>
    show ∀ kv ∈ (handleDisconnect t c).players,
      kv.2.currentQuestionIndex ≤ (handleDisconnect t c).questions.length
    unfold handleDisconnect
    cases hf : (t.players.map Prod.snd).find? (fun p => p.id == c) with
    | none =>
      simp only [hf]
      exact hinv
    | some p =>
      simp only [hf]
      intro kv hkv
      exact hinv kv (List.mem_filter.1 hkv).1

/-- An accepted submission advances the player's index by one, keeps it at
most the question count, and flags the player finished when it reaches the
count. -/
theorem submit_advances_index (t : Tournament) (pid a : String) (tt : Int)
    (pl : TournamentPlayer) (q : TournamentQuestion)
    (hg : objGet t.players pid = some pl)
    (hq : t.questions[pl.currentQuestionIndex]? = some q) :
    pl.currentQuestionIndex + 1 ≤ t.questions.length ∧
    ((handleAnswerSubmitted t pid a tt).bind
        (fun u => objGet u.players pid)).map
        TournamentPlayer.currentQuestionIndex =
      some (pl.currentQuestionIndex + 1) ∧
    (pl.currentQuestionIndex + 1 = t.questions.length →
      ((handleAnswerSubmitted t pid a tt).bind
          (fun u => objGet u.players pid)).map TournamentPlayer.isFinished =
        some true) := by
  have hlt : pl.currentQuestionIndex < t.questions.length := by
    rcases List.getElem?_eq_some_iff.1 hq with ⟨hl, _⟩
    exact hl
  refine ⟨hlt, ?_, ?_⟩
  · simp only [handleAnswerSubmitted, hg, hq, Option.some_bind]
    rw [objGet_objSet_self]
    rfl
  · intro heq
    simp only [handleAnswerSubmitted, hg, hq, Option.some_bind]
    rw [objGet_objSet_self]
    show some (decide (t.questions.length ≤ pl.currentQuestionIndex + 1)) =
      some true
    rw [decide_eq_true (le_of_eq heq.symm)]

theorem mem_objModify {α : Type} {m : ObjMap α} {k : String} {f : α → α}
    {e : String × α} (h : e ∈ objModify m k f) : e ∈ m ∨ ∃ v, e.2 = f v := by
  induction m with
  | nil => simp [objModify] at h
  | cons kv rest ih =>
    simp only [objModify, List.mem_cons] at h
    rcases h with h | h
    · by_cases hk : kv.1 = k
      · rw [if_pos hk] at h
        exact Or.inr ⟨kv.2, by rw [h]⟩
      · rw [if_neg hk] at h
        exact Or.inl (h ▸ List.mem_cons_self _ _)
    · rcases ih h with h' | h'
      · exact Or.inl (List.mem_cons_of_mem _ h')
      · exact Or.inr h'

theorem checkAndFinishTournament_questions (t : Tournament) :
    (checkAndFinishTournament t).questions = t.questions := by
  unfold checkAndFinishTournament
  split <;> rfl

/-- Mutating operations of the replicated-store transport, as the room
component and lobby invoke them: the auto-join write, the creator's start
write, an answer submission through `handleCheckAnswer` (which chains the
finish check itself), and an independent run of the finish check. -/
inductive StoreOp : Type
  | join (playerName : String)
  | start
  | submit (playerName answer : String) (timeTaken : Int)
  | finishCheck

/-- One replicated-store step. -/
def applyStoreOp (t : Tournament) : StoreOp → Tournament
  | StoreOp.join n => joinTournament t n
  | StoreOp.start => startTournament t
  | StoreOp.submit n a tt => handleCheckAnswer t n a tt
  | StoreOp.finishCheck => checkAndFinishTournament t

/-- Documents reachable from a freshly created store document under any
interleaving of joins, the start write, submissions and finish checks. -/
inductive ReachableStore (cn : String) (gt : GameType)
    (qs : List TournamentQuestion) (docId : String) (ca : Int) :
    Tournament → Prop
  | init : ReachableStore cn gt qs docId ca
      (createTournamentDoc cn gt qs docId ca)
  | step (t : Tournament) (op : StoreOp) :
      ReachableStore cn gt qs docId ca t →
      ReachableStore cn gt qs docId ca (applyStoreOp t op)

/-- Every replicated-store operation preserves the bound of every player's
index by the question count. -/
theorem indexBound_applyStoreOp {t : Tournament}
    (hinv : ∀ kv ∈ t.players, kv.2.currentQuestionIndex ≤ t.questions.length)
    (op : StoreOp) :
    ∀ kv ∈ (applyStoreOp t op).players,
      kv.2.currentQuestionIndex ≤ (applyStoreOp t op).questions.length := by
  cases op with
  | join n =>
    intro kv hkv
    rcases mem_objSet hkv with hold | hnew
    · exact hinv kv hold
    · show kv.2.currentQuestionIndex ≤ t.questions.length
      rw [hnew]
      exact Nat.zero_le _
  | start => exact hinv
  | finishCheck =>
    intro kv hkv
    rw [show (applyStoreOp t StoreOp.finishCheck).players =
      (checkAndFinishTournament t).players from rfl,
      checkAndFinishTournament_players] at hkv
    rw [show (applyStoreOp t StoreOp.finishCheck).questions =
      (checkAndFinishTournament t).questions from rfl,
      checkAndFinishTournament_questions]
    exact hinv kv hkv
  | submit n a tt =>
    show ∀ kv ∈ (handleCheckAnswer t n a tt).players,
      kv.2.currentQuestionIndex ≤ (handleCheckAnswer t n a tt).questions.length
    cases hg : objGet t.players n with
    | none =>
      simp only [handleCheckAnswer, hg]
      exact hinv
    | some pl =>
      cases hq : t.questions[pl.currentQuestionIndex]? with
      | none =>
        simp only [handleCheckAnswer, hg, hq]
        exact hinv
      | some q =>
        have hlt : pl.currentQuestionIndex < t.questions.length := by
          rcases List.getElem?_eq_some_iff.1 hq with ⟨hl, _⟩
          exact hl
        simp only [handleCheckAnswer, hg, hq]
        split
        · intro kv hkv
          rw [checkAndFinishTournament_players] at hkv
          rw [checkAndFinishTournament_questions]
          rcases mem_objModify hkv with hold | ⟨v, hv⟩
          · exact hinv kv hold
          · rw [hv]
            show pl.currentQuestionIndex + 1 ≤ t.questions.length
            omega
        · intro kv hkv
          rcases mem_objModify hkv with hold | ⟨v, hv⟩
          · exact hinv kv hold
          · rw [hv]
            show pl.currentQuestionIndex + 1 ≤ t.questions.length
            omega

/-- An accepted store-side submission advances the player's index by one,
keeps it at most the question count, and flags the player finished when it
reaches the count — the store analogue of `submit_advances_index`. -/
theorem storeSubmit_advances_index (t : Tournament) (pn a : String)
    (tt : Int) (pl : TournamentPlayer) (q : TournamentQuestion)
    (hg : objGet t.players pn = some pl)
    (hq : t.questions[pl.currentQuestionIndex]? = some q) :
    pl.currentQuestionIndex + 1 ≤ t.questions.length ∧
    (objGet (handleCheckAnswer t pn a tt).players pn).map
        TournamentPlayer.currentQuestionIndex =
      some (pl.currentQuestionIndex + 1) ∧
    (pl.currentQuestionIndex + 1 = t.questions.length →
      (objGet (handleCheckAnswer t pn a tt).players pn).map
          TournamentPlayer.isFinished = some true) := by
  have hlt : pl.currentQuestionIndex < t.questions.length := by
    rcases List.getElem?_eq_some_iff.1 hq with ⟨hl, _⟩
    exact hl
  have key : objGet (handleCheckAnswer t pn a tt).players pn =
      some { pl with
              score := pl.score +
                scoreIncrement (isCorrectAnswer t.gameType q a) tt
              currentQuestionIndex := pl.currentQuestionIndex + 1
              isFinished :=
                decide (t.questions.length ≤ pl.currentQuestionIndex + 1) } := by
    simp only [handleCheckAnswer, hg, hq]
    split
    · rw [checkAndFinishTournament_players]
      show objGet (objModify t.players pn _) pn = _
      rw [objGet_objModify_self, hg]
      rfl
    · show objGet (objModify t.players pn _) pn = _
      rw [objGet_objModify_self, hg]
      rfl
  refine ⟨hlt, ?_, ?_⟩
  · rw [key]
    rfl
  · intro heq
    rw [key]
    show some (decide (t.questions.length ≤ pl.currentQuestionIndex + 1)) =
      some true
    rw [decide_eq_true (le_of_eq heq.symm)]

/-- A freshly created store document for concrete runs. -/
def storeDoc : Tournament :=
  createTournamentDoc "amy" GameType.imageToText sampleQuestions "doc2" 7

/-- Claim C4: on every reachable state of either transport, each player's
index is at most the question count; and on both transports an accepted
submission moves the submitting player's index up by one, still within the
bound, and sets the finished flag in the same step whenever the new index
reaches the bound. -/
theorem reachable_index_bound :
    (∀ (pn : String) (gt : GameType) (qs : List TournamentQuestion)
        (t : Tournament), ReachableHost pn gt qs t →
      ∀ kv ∈ t.players, kv.2.currentQuestionIndex ≤ t.questions.length) ∧
    (∀ (cn : String) (gt : GameType) (qs : List TournamentQuestion)
        (docId : String) (ca : Int) (t : Tournament),
      ReachableStore cn gt qs docId ca t →
      ∀ kv ∈ t.players, kv.2.currentQuestionIndex ≤ t.questions.length) ∧
    (∀ (t : Tournament) (pid a : String) (tt : Int)
        (pl : TournamentPlayer) (q : TournamentQuestion),
      objGet t.players pid = some pl →
      t.questions[pl.currentQuestionIndex]? = some q →
      pl.currentQuestionIndex + 1 ≤ t.questions.length ∧
      ((handleAnswerSubmitted t pid a tt).bind
          (fun u => objGet u.players pid)).map
          TournamentPlayer.currentQuestionIndex =
        some (pl.currentQuestionIndex + 1) ∧
      (pl.currentQuestionIndex + 1 = t.questions.length →
        ((handleAnswerSubmitted t pid a tt).bind
            (fun u => objGet u.players pid)).map TournamentPlayer.isFinished =
          some true)) ∧
    (∀ (t : Tournament) (pn a : String) (tt : Int)
        (pl : TournamentPlayer) (q : TournamentQuestion),
      objGet t.players pn = some pl →
      t.questions[pl.currentQuestionIndex]? = some q →
      pl.currentQuestionIndex + 1 ≤ t.questions.length ∧
      (objGet (handleCheckAnswer t pn a tt).players pn).map
          TournamentPlayer.currentQuestionIndex =
        some (pl.currentQuestionIndex + 1) ∧
      (pl.currentQuestionIndex + 1 = t.questions.length →
        (objGet (handleCheckAnswer t pn a tt).players pn).map
            TournamentPlayer.isFinished = some true)) := by
  refine ⟨?_, ?_, ?_, ?_⟩
  · intro pn gt qs t h
    induction h with
    | init =>
      intro kv hkv
      simp only [initialHostTournament, List.mem_singleton] at hkv
      rw [hkv]
      exact Nat.zero_le _
    | setId u i hr ih => exact ih
    | step u op hr ih => exact indexBound_applyHostOp ih op
  · intro cn gt qs docId ca t h
    induction h with
    | init =>
      intro kv hkv
      simp only [createTournamentDoc, List.mem_singleton] at hkv
      rw [hkv]
      exact Nat.zero_le _
    | step u op hr ih => exact indexBound_applyStoreOp ih op
  · intro t pid a tt pl q hg hq
    exact submit_advances_index t pid a tt pl q hg hq
  · intro t pn a tt pl q hg hq
    exact storeSubmit_advances_index t pn a tt pl q hg hq

/-- Claim C4 witness: the initial states of both transports satisfy the
bound, and a concrete accepted submission on each transport advances the
index to 1 of 5. -/
theorem reachable_index_bound_witness :
    ("host", hostPlayer) ∈ hostWaiting.players ∧
    hostPlayer.currentQuestionIndex ≤ hostWaiting.questions.length ∧
    ("amy", newStorePlayer "amy") ∈ storeDoc.players ∧
    (newStorePlayer "amy").currentQuestionIndex ≤
      storeDoc.questions.length ∧
    ((handleAnswerSubmitted hostWaiting "host" "1" 500).bind
        (fun u => objGet u.players "host")).map
        TournamentPlayer.currentQuestionIndex = some 1 ∧
    (objGet (handleCheckAnswer storeDoc "amy" "1" 500).players "amy").map
        TournamentPlayer.currentQuestionIndex = some 1 :=
  ⟨by decide,
   reachable_index_bound.1 "host" GameType.imageToText sampleQuestions
     hostWaiting ReachableHost.init ("host", hostPlayer) (by decide),
   by decide,
   reachable_index_bound.2.1 "amy" GameType.imageToText sampleQuestions
     "doc2" 7 storeDoc ReachableStore.init ("amy", newStorePlayer "amy")
     (by decide),
   (reachable_index_bound.2.2.1 hostWaiting "host" "1" 500 hostPlayer
     (sampleQuestion 1) (by decide) (by decide)).2.1,
   (reachable_index_bound.2.2.2 storeDoc "amy" "1" 500 (newStorePlayer "amy")
     (sampleQuestion 1) (by decide) (by decide)).2.1⟩

/-- A sequence of host JOIN_REQUESTs, each a (connection id, name) pair,
applied in arrival order. -/
def applyJoins : Tournament → List (String × String) → Tournament
  | t, [] => t
  | t, j :: js => applyJoins (joinRequestPeer t j.1 j.2) js

theorem applyJoins_keys_toFinset (t : Tournament)
    (joins : List (String × String)) :
    (objKeys (applyJoins t joins).players).toFinset =
      (objKeys t.players).toFinset ∪ (joins.map Prod.snd).toFinset := by
  induction joins generalizing t with
  | nil => simp [applyJoins]
  | cons j js ih =>
    show (objKeys (applyJoins (joinRequestPeer t j.1 j.2) js).players).toFinset = _
    rw [ih]
    rw [show (joinRequestPeer t j.1 j.2).players =
      objSet t.players j.2 _ from rfl]
    rw [objKeys_toFinset_objSet]
    simp only [List.map_cons, List.toFinset_cons]
    ext x
    simp only [Finset.mem_union, Finset.mem_insert]
    tauto

theorem applyJoins_keys_nodup (t : Tournament)
    (joins : List (String × String)) (h : (objKeys t.players).Nodup) :
    (objKeys (applyJoins t joins).players).Nodup := by
  induction joins generalizing t with
  | nil => exact h
  | cons j js ih => exact ih _ (objKeys_nodup_objSet _ _ _ h)

/-- Claim C6: joins key the players map by the submitted name, so a
sequence of joins accepted in the waiting state produces exactly one entry
per distinct name (a repeated name overwrites the earlier entry); starting
from an empty map the player count equals the number of distinct submitted
names. -/
theorem join_count_distinct (t : Tournament)
    (_hs : t.status = TournamentStatus.waiting)
    (joins : List (String × String)) :
    (objKeys (applyJoins t joins).players).toFinset =
      (objKeys t.players).toFinset ∪ (joins.map Prod.snd).toFinset ∧
    (t.players = [] →
      (applyJoins t joins).players.length =
        (joins.map Prod.snd).dedup.length) := by
  refine ⟨applyJoins_keys_toFinset t joins, fun hp => ?_⟩
  have hnodup : (objKeys (applyJoins t joins).players).Nodup :=
    applyJoins_keys_nodup t joins (by rw [hp]; exact List.nodup_nil)
  have h1 : (applyJoins t joins).players.length =
      (objKeys (applyJoins t joins).players).toFinset.card := by
    rw [List.toFinset_card_of_nodup hnodup, objKeys_length]
  rw [h1, applyJoins_keys_toFinset t joins, hp]
  rw [show objKeys ([] : ObjMap TournamentPlayer) = [] from rfl]
  rw [show ([] : List String).toFinset = ∅ from rfl, Finset.empty_union]
  exact List.card_toFinset _

/-- An empty-roster waiting tournament, the base case of the count claim. -/
def emptyWaiting : Tournament :=
  { id := ""
    gameType := GameType.imageToText
    status := TournamentStatus.waiting
    questions := sampleQuestions
    players := []
    creatorId := "host"
    createdAt := 0 }

/-- Three sample joins with one duplicated name. -/
def sampleJoins : List (String × String) :=
  [("c1", "bob"), ("c2", "bob"), ("c3", "amy")]

/-- Claim C6 witness: two distinct names among three joins yield exactly
two players. -/
theorem join_count_distinct_witness :
    emptyWaiting.status = TournamentStatus.waiting ∧
    (applyJoins emptyWaiting sampleJoins).players.length =
      ((sampleJoins.map Prod.snd).dedup).length ∧
    (applyJoins emptyWaiting sampleJoins).players.length = 2 :=
  ⟨rfl, (join_count_distinct emptyWaiting rfl sampleJoins).2 rfl, by decide⟩

/-- Claim C10: creation refuses decks with fewer than 5 playable cards
(image and audio both present) and otherwise builds a question list of
length `min(10, playable)`, hence always between 5 and 10 inclusive. -/
theorem create_question_count (flashcards : List FlashcardItem)
    (shuffle : List FlashcardItem → List FlashcardItem)
    (hlen : ∀ l, (shuffle l).length = l.length) :
    ((flashcards.filter isPlayableCard).length < 5 →
      handleCreateTournament shuffle flashcards = none) ∧
    (5 ≤ (flashcards.filter isPlayableCard).length →
      (handleCreateTournament shuffle flashcards).map List.length =
        some (min 10 (flashcards.filter isPlayableCard).length) ∧
      5 ≤ min 10 (flashcards.filter isPlayableCard).length ∧
      min 10 (flashcards.filter isPlayableCard).length ≤ 10) := by
  have hplen : (shuffle (flashcards.filter isPlayableCard)).length =
      (flashcards.filter isPlayableCard).length := hlen _
  constructor
  · intro h
    unfold handleCreateTournament
    rw [if_pos (by rw [hplen]; exact h)]
  · intro h
    refine ⟨?_, by omega, by omega⟩
    unfold handleCreateTournament
    rw [if_neg (by rw [hplen]; omega)]
    simp only [Option.map_some', List.length_take]
    rw [hplen]
    congr 1
    omega

/-- A deck with exactly five playable cards and one unplayable card. -/
def sampleDeck : List FlashcardItem :=
  [{ id := "1", text := "1", audioUrl := "a", imageUrl := some "i",
     isLoading := false },
   { id := "2", text := "2", audioUrl := "a", imageUrl := some "i",
     isLoading := false },
   { id := "3", text := "3", audioUrl := "a", imageUrl := some "i",
     isLoading := false },
   { id := "4", text := "4", audioUrl := "a", imageUrl := some "i",
     isLoading := false },
   { id := "5", text := "5", audioUrl := "a", imageUrl := some "i",
     isLoading := false },
   { id := "6", text := "6", audioUrl := "a", imageUrl := none,
     isLoading := false }]

/-- A deck with only two playable cards. -/
def smallDeck : List FlashcardItem :=
  [{ id := "1", text := "1", audioUrl := "a", imageUrl := some "i",
     isLoading := false },
   { id := "2", text := "2", audioUrl := "a", imageUrl := some "i",
     isLoading := false },
   { id := "3", text := "3", audioUrl := "", imageUrl := some "i",
     isLoading := false }]

/-- Claim C10 witness: the small deck is refused; the five-playable deck
yields exactly five questions. -/
theorem create_question_count_witness :
    (smallDeck.filter isPlayableCard).length < 5 ∧
    handleCreateTournament id smallDeck = none ∧
    5 ≤ (sampleDeck.filter isPlayableCard).length ∧
    (handleCreateTournament id sampleDeck).map List.length =
      some (min 10 (sampleDeck.filter isPlayableCard).length) :=
  ⟨by decide,
   (create_question_count smallDeck id (fun l => rfl)).1 (by decide),
   by decide,
   ((create_question_count sampleDeck id (fun l => rfl)).2 (by decide)).1⟩

end TournamentSpec
